import Mathlib

/-!
Verification of the face-tracking core of `show_video.py`:
the IoU overlap metric (`calculate_IoU`) and the per-round track-registry
update (`identify_valid_faces`), together with the rendered-box filter
from `start_feed`.

Boxes are `(x, y, w, h)` in integer pixel coordinates; Python's exact
integer arithmetic is embedded as `ℤ`, and the final float division is
embedded as exact division in `ℚ`.
-/

/-- A bounding box in the source's `(x, y, w, h)` format:
`(x, y)` is the top-left corner, `w` the width, `h` the height. -/
structure Box where
  x : ℤ
  y : ℤ
  w : ℤ
  h : ℤ
deriving DecidableEq, Repr

/-- Embedding of `calculate_IoU` from `show_video.py`: intersection
rectangle from max/min of the corners, width/height clamped to `≥ 0`,
union area as `areaA + areaB - i_area`, returning `0` when the union
area is `0` and the exact ratio otherwise. -/
def calculate_IoU (boxA boxB : Box) : ℚ :=
  let i_x_top_left := max boxA.x boxB.x
  let i_y_top_left := max boxA.y boxB.y
  let i_x_bottom_right := min (boxA.x + boxA.w) (boxB.x + boxB.w)
  let i_y_bottom_right := min (boxA.y + boxA.h) (boxB.y + boxB.h)
  let i_width := max 0 (i_x_bottom_right - i_x_top_left)
  let i_height := max 0 (i_y_bottom_right - i_y_top_left)
  let i_area := i_width * i_height
  let boxA_area := boxA.w * boxA.h
  let boxB_area := boxB.w * boxB.h
  let union_area := boxA_area + boxB_area - i_area
  if union_area = 0 then 0
  else (i_area : ℚ) / (union_area : ℚ)

/-- The inner `for tracked_face, count in face_tracker` loop of
`identify_valid_faces`: scan the previous entries in order and return the
first whose IoU with `face` strictly exceeds `0.2`, or `none` when the
loop falls through to its `else` clause. -/
def scanMatch (face : Box) : List (Box × ℤ) → Option (Box × ℤ)
  | [] => none
  | (tracked_face, count) :: rest =>
    if (1 : ℚ)/5 < calculate_IoU face tracked_face then some (tracked_face, count)
    else scanMatch face rest

/-- Embedding of `identify_valid_faces` from `show_video.py`: for each new
face in batch order, append `(face, count+1)` on the first match in the
previous tracker state, and `(face, 1)` when no entry matches. -/
def identify_valid_faces (face_tracker : List (Box × ℤ)) : List Box → List (Box × ℤ)
  | [] => []
  | face :: rest =>
    (match scanMatch face face_tracker with
     | some (_, count) => (face, count + 1)
     | none => (face, 1)) :: identify_valid_faces face_tracker rest

/-- Embedding of the rendered-box filter from `start_feed`:
`faces = [face for (face, count) in face_tracker if count > 2]`. -/
def renderedFaces (face_tracker : List (Box × ℤ)) : List Box :=
  (face_tracker.filter (fun fc => decide (2 < fc.2))).map Prod.fst

/-- Folding the per-round update over a whole session of detection
batches, starting from the empty registry of `start_feed`. -/
def runRounds (batches : List (List Box)) : List (Box × ℤ) :=
  batches.foldl identify_valid_faces []

/-- Division model that faults (returns `none`) on a zero divisor, used to
show the Python code never reaches a division by zero. -/
def qdivChecked (a b : ℚ) : Option ℚ :=
  if b = 0 then none else some (a / b)

/-- `calculate_IoU` with the division modelled as faultable: the guard
`if union_area == 0: return 0.0` is taken before dividing, exactly as in
the source. -/
def calculate_IoUChecked (boxA boxB : Box) : Option ℚ :=
  let i_x_top_left := max boxA.x boxB.x
  let i_y_top_left := max boxA.y boxB.y
  let i_x_bottom_right := min (boxA.x + boxA.w) (boxB.x + boxB.w)
  let i_y_bottom_right := min (boxA.y + boxA.h) (boxB.y + boxB.h)
  let i_width := max 0 (i_x_bottom_right - i_x_top_left)
  let i_height := max 0 (i_y_bottom_right - i_y_top_left)
  let i_area := i_width * i_height
  let boxA_area := boxA.w * boxA.h
  let boxB_area := boxB.w * boxB.h
  let union_area := boxA_area + boxB_area - i_area
  if union_area = 0 then some 0
  else qdivChecked (i_area : ℚ) (union_area : ℚ)

/-- Following §4.1 of the design: the intersection rectangle's width,
clamped to `≥ 0` before multiplying. -/
def interWidth (A B : Box) : ℤ :=
  max 0 (min (A.x + A.w) (B.x + B.w) - max A.x B.x)

/-- Following §4.1 of the design: the intersection rectangle's height,
clamped to `≥ 0` before multiplying. -/
def interHeight (A B : Box) : ℤ :=
  max 0 (min (A.y + A.h) (B.y + B.h) - max A.y B.y)

/-- Following §4.1 of the design: the area of the intersection rectangle. -/
def interArea (A B : Box) : ℤ :=
  interWidth A B * interHeight A B

/-- Following §4.1 of the design:
union area = area(A) + area(B) − intersection area. -/
def unionArea (A B : Box) : ℤ :=
  A.w * A.h + B.w * B.h - interArea A B

/-- The inner matching loop with faultable IoU: `none` means a runtime
fault inside the loop, `some none` a fall-through with no match. -/
def scanMatchChecked (face : Box) : List (Box × ℤ) → Option (Option (Box × ℤ))
  | [] => some none
  | (tracked_face, count) :: rest =>
    match calculate_IoUChecked face tracked_face with
    | none => none
    | some iou =>
      if (1 : ℚ)/5 < iou then some (some (tracked_face, count))
      else scanMatchChecked face rest

/-- `identify_valid_faces` with faultable IoU: `none` means some IoU
computation faulted during the round. -/
def identify_valid_facesChecked (face_tracker : List (Box × ℤ)) :
    List Box → Option (List (Box × ℤ))
  | [] => some []
  | face :: rest =>
    match scanMatchChecked face face_tracker with
    | none => none
    | some m =>
      match identify_valid_facesChecked face_tracker rest with
      | none => none
      | some tail =>
        some ((match m with
               | some (_, count) => (face, count + 1)
               | none => (face, 1)) :: tail)

/-! ## Helper lemmas -/

lemma calculate_IoU_eq (A B : Box) :
    calculate_IoU A B =
      if unionArea A B = 0 then 0
      else (interArea A B : ℚ) / (unionArea A B : ℚ) := rfl

lemma interWidth_nonneg (A B : Box) : 0 ≤ interWidth A B := le_max_left 0 _

lemma interHeight_nonneg (A B : Box) : 0 ≤ interHeight A B := le_max_left 0 _

lemma interArea_nonneg (A B : Box) : 0 ≤ interArea A B :=
  mul_nonneg (interWidth_nonneg A B) (interHeight_nonneg A B)

lemma interWidth_le (A B : Box) (h : 0 < interWidth A B) :
    interWidth A B ≤ A.w ∧ interWidth A B ≤ B.w := by
  have hm : 0 < min (A.x + A.w) (B.x + B.w) - max A.x B.x := by
    rcases lt_max_iff.mp h with h0 | h0
    · exact absurd h0 (lt_irrefl 0)
    · exact h0
  constructor
  · unfold interWidth
    rw [max_eq_right hm.le]
    have h1 : min (A.x + A.w) (B.x + B.w) ≤ A.x + A.w := min_le_left _ _
    have h2 : A.x ≤ max A.x B.x := le_max_left _ _
    linarith
  · unfold interWidth
    rw [max_eq_right hm.le]
    have h1 : min (A.x + A.w) (B.x + B.w) ≤ B.x + B.w := min_le_right _ _
    have h2 : B.x ≤ max A.x B.x := le_max_right _ _
    linarith

lemma interHeight_le (A B : Box) (h : 0 < interHeight A B) :
    interHeight A B ≤ A.h ∧ interHeight A B ≤ B.h := by
  have hm : 0 < min (A.y + A.h) (B.y + B.h) - max A.y B.y := by
    rcases lt_max_iff.mp h with h0 | h0
    · exact absurd h0 (lt_irrefl 0)
    · exact h0
  constructor
  · unfold interHeight
    rw [max_eq_right hm.le]
    have h1 : min (A.y + A.h) (B.y + B.h) ≤ A.y + A.h := min_le_left _ _
    have h2 : A.y ≤ max A.y B.y := le_max_left _ _
    linarith
  · unfold interHeight
    rw [max_eq_right hm.le]
    have h1 : min (A.y + A.h) (B.y + B.h) ≤ B.y + B.h := min_le_right _ _
    have h2 : B.y ≤ max A.y B.y := le_max_right _ _
    linarith

lemma interArea_le (A B : Box) (h : 0 < interArea A B) :
    interArea A B ≤ A.w * A.h ∧ interArea A B ≤ B.w * B.h := by
  have hw : 0 < interWidth A B := by
    rcases mul_pos_iff.mp h with ⟨hw, _⟩ | ⟨hw, _⟩
    · exact hw
    · exact absurd hw (not_lt.mpr (interWidth_nonneg A B))
  have hh : 0 < interHeight A B := by
    rcases mul_pos_iff.mp h with ⟨_, hh⟩ | ⟨_, hh⟩
    · exact hh
    · exact absurd hh (not_lt.mpr (interHeight_nonneg A B))
  obtain ⟨hwA, hwB⟩ := interWidth_le A B hw
  obtain ⟨hhA, hhB⟩ := interHeight_le A B hh
  constructor
  · exact mul_le_mul hwA hhA hh.le (le_trans hw.le hwA)
  · exact mul_le_mul hwB hhB hh.le (le_trans hw.le hwB)

lemma iou_bounds (A B : Box) : 0 ≤ calculate_IoU A B ∧ calculate_IoU A B ≤ 1 := by
  rw [calculate_IoU_eq]
  split_ifs with hu
  · norm_num
  · rcases (interArea_nonneg A B).lt_or_eq with hpos | hzero
    · obtain ⟨hA, _⟩ := interArea_le A B hpos
      have hU : interArea A B ≤ unionArea A B := by
        obtain ⟨_, hB⟩ := interArea_le A B hpos
        unfold unionArea
        linarith
      have hUpos : 0 < unionArea A B := lt_of_lt_of_le hpos hU
      have hUq : (0 : ℚ) < (unionArea A B : ℚ) := by exact_mod_cast hUpos
      constructor
      · exact div_nonneg (by exact_mod_cast hpos.le) hUq.le
      · rw [div_le_one hUq]
        exact_mod_cast hU
    · rw [← hzero]
      norm_num

lemma calculate_IoUChecked_eq (A B : Box) :
    calculate_IoUChecked A B = some (calculate_IoU A B) := by
  show (if unionArea A B = 0 then some 0
        else qdivChecked (interArea A B : ℚ) (unionArea A B : ℚ)) = _
  rw [calculate_IoU_eq]
  split_ifs with hu
  · rfl
  · unfold qdivChecked
    rw [if_neg (by exact_mod_cast hu)]

lemma scanMatch_eq_find (face : Box) (ft : List (Box × ℤ)) :
    scanMatch face ft =
      ft.find? (fun e => decide ((1 : ℚ)/5 < calculate_IoU face e.1)) := by
  induction ft with
  | nil => rfl
  | cons hd tl ih =>
    obtain ⟨tf, c⟩ := hd
    rw [scanMatch, List.find?]
    split_ifs with hiou
    · rw [decide_eq_true hiou]
    · rw [decide_eq_false hiou]
      exact ih

lemma scanMatch_iou (face : Box) (ft : List (Box × ℤ)) (b : Box) (c : ℤ)
    (h : scanMatch face ft = some (b, c)) : (1 : ℚ)/5 < calculate_IoU face b := by
  induction ft with
  | nil => exact absurd h (by simp [scanMatch])
  | cons hd tl ih =>
    obtain ⟨tf, c0⟩ := hd
    rw [scanMatch] at h
    split_ifs at h with hiou
    · obtain ⟨rfl, rfl⟩ : tf = b ∧ c0 = c := by
        constructor <;> [exact congrArg Prod.fst (Option.some.inj h);
                         exact congrArg Prod.snd (Option.some.inj h)]
      exact hiou
    · exact ih h

lemma scanMatch_mem (face : Box) (ft : List (Box × ℤ)) (b : Box) (c : ℤ)
    (h : scanMatch face ft = some (b, c)) : (b, c) ∈ ft := by
  induction ft with
  | nil => exact absurd h (by simp [scanMatch])
  | cons hd tl ih =>
    obtain ⟨tf, c0⟩ := hd
    rw [scanMatch] at h
    split_ifs at h with hiou
    · exact (Option.some.inj h) ▸ List.mem_cons_self _ _
    · exact List.mem_cons_of_mem _ (ih h)

lemma scanMatch_skip_unmatched (face : Box) (l1 l2 : List (Box × ℤ)) (e : Box × ℤ)
    (h : calculate_IoU face e.1 ≤ (1 : ℚ)/5) :
    scanMatch face (l1 ++ e :: l2) = scanMatch face (l1 ++ l2) := by
  induction l1 with
  | nil =>
    obtain ⟨tf, c⟩ := e
    rw [List.nil_append, scanMatch, if_neg (not_lt.mpr h), List.nil_append]
  | cons hd tl ih =>
    obtain ⟨tf, c⟩ := hd
    rw [List.cons_append, List.cons_append, scanMatch, scanMatch]
    split_ifs
    · rfl
    · exact ih

lemma identify_valid_faces_map (ft : List (Box × ℤ)) (nf : List Box) :
    identify_valid_faces ft nf =
      nf.map (fun face =>
        match scanMatch face ft with
        | some (_, count) => (face, count + 1)
        | none => (face, 1)) := by
  induction nf with
  | nil => rfl
  | cons hd tl ih =>
    rw [identify_valid_faces, List.map_cons, ih]

lemma scanMatchChecked_eq (face : Box) (ft : List (Box × ℤ)) :
    scanMatchChecked face ft = some (scanMatch face ft) := by
  induction ft with
  | nil => rfl
  | cons hd tl ih =>
    obtain ⟨tf, c⟩ := hd
    rw [scanMatchChecked, scanMatch, calculate_IoUChecked_eq]
    show (if (1 : ℚ)/5 < calculate_IoU face tf then some (some (tf, c))
          else scanMatchChecked face tl) = _
    split_ifs
    · rfl
    · exact ih

lemma identify_valid_facesChecked_eq (ft : List (Box × ℤ)) (nf : List Box) :
    identify_valid_facesChecked ft nf = some (identify_valid_faces ft nf) := by
  induction nf with
  | nil => rfl
  | cons hd tl ih =>
    rw [identify_valid_facesChecked, identify_valid_faces, scanMatchChecked_eq, ih]

lemma renderedFaces_mem (ft : List (Box × ℤ)) (b : Box) :
    b ∈ renderedFaces ft ↔ ∃ c : ℤ, (b, c) ∈ ft ∧ 2 < c := by
  unfold renderedFaces
  simp only [List.mem_map, List.mem_filter, decide_eq_true_eq]
  constructor
  · rintro ⟨⟨b0, c⟩, ⟨hmem, hc⟩, rfl⟩
    exact ⟨c, hmem, hc⟩
  · rintro ⟨c, hmem, hc⟩
    exact ⟨(b, c), ⟨hmem, hc⟩, rfl⟩

lemma interWidth_comm (A B : Box) : interWidth A B = interWidth B A := by
  unfold interWidth
  rw [max_comm A.x B.x, min_comm (A.x + A.w) (B.x + B.w)]

lemma interHeight_comm (A B : Box) : interHeight A B = interHeight B A := by
  unfold interHeight
  rw [max_comm A.y B.y, min_comm (A.y + A.h) (B.y + B.h)]

lemma interArea_comm (A B : Box) : interArea A B = interArea B A := by
  unfold interArea
  rw [interWidth_comm, interHeight_comm]

lemma unionArea_comm (A B : Box) : unionArea A B = unionArea B A := by
  unfold unionArea
  rw [interArea_comm]
  ring

lemma calculate_IoU_comm (A B : Box) : calculate_IoU A B = calculate_IoU B A := by
  rw [calculate_IoU_eq, calculate_IoU_eq, interArea_comm, unionArea_comm]

lemma identify_counts_pos (ft : List (Box × ℤ)) (hft : ∀ e ∈ ft, 0 ≤ e.2)
    (nf : List Box) : ∀ e ∈ identify_valid_faces ft nf, 1 ≤ e.2 := by
  induction nf with
  | nil => intro e he; exact absurd he (by simp [identify_valid_faces])
  | cons hd tl ih =>
    intro e he
    rw [identify_valid_faces] at he
    rcases List.mem_cons.mp he with rfl | htl
    · cases hsm : scanMatch hd ft with
      | none => simp only [hsm]; norm_num
      | some bc =>
        obtain ⟨b, c⟩ := bc
        have hmem := scanMatch_mem hd ft b c hsm
        have hc : 0 ≤ c := hft (b, c) hmem
        simp only [hsm]
        omega
    · exact ih e htl

lemma foldl_counts_pos (batches : List (List Box)) :
    ∀ st : List (Box × ℤ), (∀ e ∈ st, 0 ≤ e.2) →
      ∀ e ∈ batches.foldl identify_valid_faces st, 0 ≤ e.2 ∧ (batches ≠ [] → 1 ≤ e.2) := by
  induction batches with
  | nil =>
    intro st hst e he
    exact ⟨hst e he, fun hne => absurd rfl hne⟩
  | cons b rest ih =>
    intro st hst e he
    rw [List.foldl_cons] at he
    have hstep : ∀ e ∈ identify_valid_faces st b, 0 ≤ e.2 := by
      intro e he
      exact le_trans (by norm_num) (identify_counts_pos st hst b e he)
    cases rest with
    | nil =>
      rw [List.foldl_nil] at he
      exact ⟨le_trans (by norm_num) (identify_counts_pos st hst b e he),
             fun _ => identify_counts_pos st hst b e he⟩
    | cons b2 rest2 =>
      have h2 := ih (identify_valid_faces st b) hstep e he
      exact ⟨h2.1, fun _ => h2.2 (by simp)⟩

/-! ## Claim theorems -/

/-- C1: `identify_valid_faces` returns, in detection-batch order, exactly one
entry per detection `d`: `(d, c+1)` where `c` is the count of the first
previous entry (in entry order) whose IoU with `d` exceeds `0.2`, or `(d, 1)`
when no entry's IoU with `d` exceeds `0.2`; the concrete conjunct shows the
scan stops at the first match (count `5+1`), not the maximum overlap
(the identical box with count `9`). -/
theorem C1_first_match_update :
    (∀ (face_tracker : List (Box × ℤ)) (new_faces : List Box),
      identify_valid_faces face_tracker new_faces =
        new_faces.map (fun face =>
          match face_tracker.find? (fun e => decide ((1 : ℚ)/5 < calculate_IoU face e.1)) with
          | some e => (face, e.2 + 1)
          | none => (face, 1)))
    ∧ identify_valid_faces [(⟨0, 0, 10, 4⟩, 5), (⟨0, 0, 10, 10⟩, 9)] [⟨0, 0, 10, 10⟩]
        = [(⟨0, 0, 10, 10⟩, 6)] := by
  constructor
  · intro ft nf
    rw [identify_valid_faces_map]
    apply List.map_congr_left
    intro face _
    rw [← scanMatch_eq_find]
    cases hsm : scanMatch face ft with
    | none => rfl
    | some e =>
      obtain ⟨b, c⟩ := e
      rfl
  · norm_num [identify_valid_faces, scanMatch, calculate_IoU]

/-- C2: for boxes with non-negative width and height, `calculate_IoU` equals
intersection area over union area (intersection width/height clamped to
`≥ 0`, union = areaA + areaB − intersection), is exactly `0` when the union
area is `0`, and the faultable-division model returns normally (no
division-by-zero fault). -/
theorem C2_iou_is_intersection_over_union (A B : Box)
    (hAw : 0 ≤ A.w) (hAh : 0 ≤ A.h) (hBw : 0 ≤ B.w) (hBh : 0 ≤ B.h) :
    calculate_IoU A B =
      (if unionArea A B = 0 then 0 else (interArea A B : ℚ) / (unionArea A B : ℚ))
    ∧ calculate_IoUChecked A B = some (calculate_IoU A B) :=
  ⟨calculate_IoU_eq A B, calculate_IoUChecked_eq A B⟩

/-- C2 witness: the degenerate zero-area/zero-area pair, where the union
area is `0` and the result is exactly `0`, with no fault. -/
theorem C2_iou_is_intersection_over_union_witness :
    calculate_IoU ⟨0, 0, 0, 0⟩ ⟨0, 0, 0, 0⟩ =
      (if unionArea ⟨0, 0, 0, 0⟩ ⟨0, 0, 0, 0⟩ = 0 then 0
       else (interArea ⟨0, 0, 0, 0⟩ ⟨0, 0, 0, 0⟩ : ℚ) / (unionArea ⟨0, 0, 0, 0⟩ ⟨0, 0, 0, 0⟩ : ℚ))
    ∧ calculate_IoUChecked ⟨0, 0, 0, 0⟩ ⟨0, 0, 0, 0⟩
        = some (calculate_IoU ⟨0, 0, 0, 0⟩ ⟨0, 0, 0, 0⟩) :=
  C2_iou_is_intersection_over_union ⟨0, 0, 0, 0⟩ ⟨0, 0, 0, 0⟩
    le_rfl le_rfl le_rfl le_rfl

/-- C3: a box is rendered exactly when some registry entry holds it with
count strictly greater than `2`; feeding the box `(0,0,10,10)` from the
empty registry for three rounds yields the state `[(box, 3)]`, an empty
rendered set after rounds 1 and 2, and exactly that box after round 3. -/
theorem C3_rendered_over_two :
    (∀ (face_tracker : List (Box × ℤ)) (b : Box),
      b ∈ renderedFaces face_tracker ↔ ∃ c : ℤ, (b, c) ∈ face_tracker ∧ 2 < c)
    ∧ runRounds [[⟨0, 0, 10, 10⟩], [⟨0, 0, 10, 10⟩], [⟨0, 0, 10, 10⟩]] = [(⟨0, 0, 10, 10⟩, 3)]
    ∧ renderedFaces (runRounds [[⟨0, 0, 10, 10⟩], [⟨0, 0, 10, 10⟩], [⟨0, 0, 10, 10⟩]])
        = [⟨0, 0, 10, 10⟩]
    ∧ renderedFaces (runRounds [[⟨0, 0, 10, 10⟩]]) = []
    ∧ renderedFaces (runRounds [[⟨0, 0, 10, 10⟩], [⟨0, 0, 10, 10⟩]]) = [] := by
  refine ⟨renderedFaces_mem, ?_, ?_, ?_, ?_⟩ <;>
    norm_num [runRounds, identify_valid_faces, scanMatch, calculate_IoU,
      renderedFaces, List.filter]

/-- C4: a previous-round entry matched by no detection of the batch is
dropped entirely — removing it from the previous state leaves the next
state unchanged, so it appears in the next state under no count — and an
empty detection batch yields an empty next state and an empty rendered
set. -/
theorem C4_unmatched_entries_dropped :
    (∀ face_tracker : List (Box × ℤ),
      identify_valid_faces face_tracker [] = [] ∧
      renderedFaces (identify_valid_faces face_tracker []) = [])
    ∧ (∀ (l1 l2 : List (Box × ℤ)) (e : Box × ℤ) (new_faces : List Box),
        (∀ d ∈ new_faces, calculate_IoU d e.1 ≤ (1 : ℚ)/5) →
        identify_valid_faces (l1 ++ e :: l2) new_faces =
          identify_valid_faces (l1 ++ l2) new_faces) := by
  constructor
  · intro ft
    exact ⟨rfl, rfl⟩
  · intro l1 l2 e nf h
    rw [identify_valid_faces_map, identify_valid_faces_map]
    apply List.map_congr_left
    intro d hd
    rw [scanMatch_skip_unmatched d l1 l2 e (h d hd)]

/-- C4 witness: a far-away entry is unmatched by the batch, and its removal
leaves the next state unchanged. -/
theorem C4_unmatched_entries_dropped_witness :
    identify_valid_faces [(⟨100, 100, 5, 5⟩, 7)] [⟨0, 0, 10, 10⟩] =
      identify_valid_faces [] [⟨0, 0, 10, 10⟩] :=
  C4_unmatched_entries_dropped.2 [] [] (⟨100, 100, 5, 5⟩, 7) [⟨0, 0, 10, 10⟩] (by
    intro d hd
    rw [List.mem_singleton] at hd
    subst hd
    norm_num [calculate_IoU])

/-- C5: the match test is strictly `> 0.2`: any successful scan of the
previous entries returns an entry whose IoU with the detection strictly
exceeds `1/5`, and a concrete pair whose IoU is exactly `1/5` is not
matched (it enters the tracker afresh with count `1`). -/
theorem C5_threshold_strictly_exceeded :
    (∀ (face : Box) (face_tracker : List (Box × ℤ)) (b : Box) (c : ℤ),
      scanMatch face face_tracker = some (b, c) → (1 : ℚ)/5 < calculate_IoU face b)
    ∧ calculate_IoU ⟨0, 0, 1, 1⟩ ⟨0, 0, 1, 5⟩ = 1/5
    ∧ identify_valid_faces [(⟨0, 0, 1, 5⟩, 3)] [⟨0, 0, 1, 1⟩] = [(⟨0, 0, 1, 1⟩, 1)] := by
  refine ⟨scanMatch_iou, ?_, ?_⟩
  · norm_num [calculate_IoU]
  · norm_num [identify_valid_faces, scanMatch, calculate_IoU]

/-- C5 witness: a concrete successful scan, whose IoU therefore strictly
exceeds `1/5`. -/
theorem C5_threshold_strictly_exceeded_witness :
    (1 : ℚ)/5 < calculate_IoU ⟨0, 0, 10, 10⟩ ⟨0, 0, 10, 10⟩ :=
  C5_threshold_strictly_exceeded.1 ⟨0, 0, 10, 10⟩ [(⟨0, 0, 10, 10⟩, 2)] ⟨0, 0, 10, 10⟩ 2
    (by norm_num [scanMatch, calculate_IoU])

/-- C6: the overlap metric is symmetric: `calculate_IoU A B = calculate_IoU B A`
for all boxes `A`, `B`. -/
theorem C6_iou_symmetric : ∀ A B : Box, calculate_IoU A B = calculate_IoU B A :=
  calculate_IoU_comm

/-- C7: for boxes with non-negative width and height, `calculate_IoU` lies
in the closed interval `[0, 1]`. -/
theorem C7_iou_in_unit_interval (A B : Box)
    (hAw : 0 ≤ A.w) (hAh : 0 ≤ A.h) (hBw : 0 ≤ B.w) (hBh : 0 ≤ B.h) :
    0 ≤ calculate_IoU A B ∧ calculate_IoU A B ≤ 1 :=
  iou_bounds A B

/-- C7 witness: two concrete overlapping boxes. -/
theorem C7_iou_in_unit_interval_witness :
    0 ≤ calculate_IoU ⟨0, 0, 10, 10⟩ ⟨5, 5, 10, 10⟩
    ∧ calculate_IoU ⟨0, 0, 10, 10⟩ ⟨5, 5, 10, 10⟩ ≤ 1 :=
  C7_iou_in_unit_interval ⟨0, 0, 10, 10⟩ ⟨5, 5, 10, 10⟩
    (by decide) (by decide) (by decide) (by decide)

/-- C8 counterexample: a batch containing the negative-dimension box
`(0,0,-1,-1)` is NOT rejected at the boundary — the per-round update (with
every division modelled as faultable) completes normally, the matching
loop computes the IoU of the malformed box against the tracked entry
(obtaining `0`), and the malformed box enters the next state with count
`1`; no error of any kind is raised. -/
theorem C8_no_boundary_rejection :
    identify_valid_facesChecked [(⟨0, 0, 4, 4⟩, 2)] [⟨0, 0, -1, -1⟩]
      = some [(⟨0, 0, -1, -1⟩, 1)]
    ∧ calculate_IoU ⟨0, 0, -1, -1⟩ ⟨0, 0, 4, 4⟩ = 0 := by
  constructor
  · norm_num [identify_valid_facesChecked, scanMatchChecked, calculate_IoUChecked,
      qdivChecked]
  · norm_num [calculate_IoU]

/-- C8 amended: the tracker performs no boundary validation at all — for
every previous state and detection batch, including ones holding
negative-dimension boxes, the per-round update runs the matching loop and
returns normally (never a fault), with no rejection step. -/
theorem C8_update_never_fails :
    ∀ (face_tracker : List (Box × ℤ)) (new_faces : List Box),
      identify_valid_facesChecked face_tracker new_faces =
        some (identify_valid_faces face_tracker new_faces) :=
  identify_valid_facesChecked_eq

/-- C9: `calculate_IoU` is total and bounded on every pair of integer
boxes, malformed ones included: the faultable-division model always
returns normally, and the result lies in `[0, 1]`. -/
theorem C9_iou_total_and_bounded :
    ∀ A B : Box, calculate_IoUChecked A B = some (calculate_IoU A B)
      ∧ 0 ≤ calculate_IoU A B ∧ calculate_IoU A B ≤ 1 :=
  fun A B => ⟨calculate_IoUChecked_eq A B, iou_bounds A B⟩

/-- C10: every persistence count emitted by `identify_valid_faces` is `≥ 1`
whenever the input state's counts are non-negative, and every registry
state reachable from the empty initial state by per-round updates has all
counts `≥ 1`. -/
theorem C10_counts_at_least_one :
    (∀ face_tracker : List (Box × ℤ), (∀ e ∈ face_tracker, 0 ≤ e.2) →
      ∀ new_faces : List Box, ∀ e ∈ identify_valid_faces face_tracker new_faces, 1 ≤ e.2)
    ∧ (∀ batches : List (List Box), ∀ e ∈ runRounds batches, 1 ≤ e.2) := by
  constructor
  · intro ft hft nf e he
    exact identify_counts_pos ft hft nf e he
  · intro batches e he
    cases batches with
    | nil => exact absurd he (by simp [runRounds])
    | cons b rest =>
      exact (foldl_counts_pos (b :: rest) [] (by simp) e he).2 (by simp)

/-- C10 witness: the first round from the empty registry produces the
fresh entry `(box, 1)`, whose count is `≥ 1`. -/
theorem C10_counts_at_least_one_witness :
    (1 : ℤ) ≤ ((⟨0, 0, 10, 10⟩ : Box), (1 : ℤ)).2 :=
  C10_counts_at_least_one.1 [] (by simp) [⟨0, 0, 10, 10⟩] (⟨0, 0, 10, 10⟩, 1)
    (by simp [identify_valid_faces, scanMatch])
